import Mathlib

/-!
Shallow embedding of the cdr-rs CDR codec core (src/lib.rs and src/de.rs),
together with proofs of the specification claims about it.

Bytes are modelled as natural numbers (real wire bytes are < 256; where a
claim's truth depends on byte range, an explicit bound appears as a
hypothesis).  The deserializer of src/de.rs is a state-passing function on
DState; fallible operations return Except Error.  The serializer and the
size pass live in src/ser.rs and src/size.rs, which are not part of the
sources here; those two components are modelled from the specification and
marked as such in their doc comments.
-/

namespace Cdr

/-- Payload endianness, from the private Endianness enum of src/lib.rs. -/
inductive Endianness where
  | BigEndian
  | LittleEndian
deriving DecidableEq, Repr

/-- RepresentationFormat from src/lib.rs: the four encapsulation variants. -/
inductive RepresentationFormat where
  | CdrBe
  | CdrLe
  | PlCdrBe
  | PlCdrLe
deriving DecidableEq, Repr

/-- RepresentationFormat::id from src/lib.rs. -/
def RepresentationFormat.id : RepresentationFormat → Nat
  | .CdrBe => 0x0000
  | .CdrLe => 0x0001
  | .PlCdrBe => 0x0002
  | .PlCdrLe => 0x0003

/-- RepresentationFormat::option from src/lib.rs: always 0. -/
def RepresentationFormat.option : RepresentationFormat → Nat :=
  fun _ => 0x0000

/-- RepresentationFormat::endianness from src/lib.rs. -/
def RepresentationFormat.endianness : RepresentationFormat → Endianness
  | .CdrBe => Endianness.BigEndian
  | .PlCdrBe => Endianness.BigEndian
  | .CdrLe => Endianness.LittleEndian
  | .PlCdrLe => Endianness.LittleEndian

/-- Error variants of crate::error::Error, as used by src/lib.rs and
src/de.rs (Io is rendered ioError here; InvalidUtf8Encoding carries the
valid-prefix length of the underlying UTF-8 validation failure). -/
inductive Error where
  | ioError
  | InvalidBoolEncoding (b : Nat)
  | InvalidCharEncoding
  | InvalidUtf8Encoding (validUpTo : Nat)
  | InvalidEncapsulation
  | TypeNotSupported
  | DeserializeAnyNotSupported
  | SizeLimit
deriving DecidableEq, Repr

/-- Deserializer state from src/de.rs: the remaining reader bytes, the
payload position counter, the active endianness, and the size-limit state
(limit = none is Infinite, limit = some max is Bounded(max); consumed is the
running total the limit tracks). -/
structure DState where
  input : List Nat
  pos : Nat
  endianness : Endianness
  limit : Option Nat
  consumed : Nat
deriving DecidableEq, Repr

/-- Modelled from the spec: src/size.rs (SizeLimit with Infinite and
Bounded) is not among the sources.  Per the spec, a bounded limit tracks
cumulative bytes via add and fails with SizeLimit as soon as the running
total would exceed max; Infinite never fails. -/
def size_limit_add (s : DState) (n : Nat) : Except Error DState :=
  match s.limit with
  | none => .ok { s with consumed := s.consumed + n }
  | some max =>
    if s.consumed + n ≤ max
    then .ok { s with consumed := s.consumed + n }
    else .error .SizeLimit

/-- Deserializer::read_size from src/de.rs: advance pos, then charge the
size limit. -/
def read_size (s : DState) (size : Nat) : Except Error DState :=
  size_limit_add { s with pos := s.pos + size } size

/-- Read::read_exact on the underlying reader: take exactly n bytes or fail
with the Io error (UnexpectedEof), as a slice reader does. -/
def read_exact (s : DState) (n : Nat) : Except Error (List Nat × DState) :=
  if n ≤ s.input.length
  then .ok (s.input.take n, { s with input := s.input.drop n })
  else .error .ioError

/-- Deserializer::read_padding_of from src/de.rs, with alignment =
size_of::<T>.  The source matches pos & rem_mask against 0 and 1..=7 with an
unreachable catch-all; for the alignments 1, 2, 4, 8 actually used the
masked value is at most 7, so the two reachable arms are the 0 arm and the
catch-all below. -/
def read_padding_of (s : DState) (alignment : Nat) : Except Error DState :=
  match Nat.land s.pos (alignment - 1) with
  | 0 => .ok s
  | n =>
    match read_size s (alignment - n) with
    | .error e => .error e
    | .ok s1 =>
      match read_exact s1 (alignment - n) with
      | .error e => .error e
      | .ok (_, s2) => .ok s2

/-- deserialize_u8 from src/de.rs: one byte, no padding, endianness
independent. -/
def deserialize_u8 (s : DState) : Except Error (Nat × DState) :=
  match read_size s 1 with
  | .error e => .error e
  | .ok s1 =>
    match read_exact s1 1 with
    | .error e => .error e
    | .ok (buf, s2) => .ok (buf.headD 0, s2)

/-- deserialize_i8 from src/de.rs: one byte, no padding, value via
two's-complement reinterpretation. -/
def deserialize_i8 (s : DState) : Except Error (Int × DState) :=
  match read_size s 1 with
  | .error e => .error e
  | .ok s1 =>
    match read_exact s1 1 with
    | .error e => .error e
    | .ok (buf, s2) =>
      .ok (if buf.headD 0 < 128 then (buf.headD 0 : Int)
           else (buf.headD 0 : Int) - 256, s2)

/-- uXX::from_be_bytes on a byte list. -/
def from_be_bytes (bs : List Nat) : Nat :=
  bs.foldl (fun acc b => acc * 256 + b) 0

/-- uXX::from_le_bytes on a byte list. -/
def from_le_bytes (bs : List Nat) : Nat :=
  from_be_bytes bs.reverse

/-- Common body of deserialize_u16 / deserialize_u32 / deserialize_u64 from
src/de.rs, which differ only in the width w: pad to w, charge w, read w
bytes, combine per the active endianness. -/
def deserialize_uN (w : Nat) (s : DState) : Except Error (Nat × DState) :=
  match read_padding_of s w with
  | .error e => .error e
  | .ok s1 =>
    match read_size s1 w with
    | .error e => .error e
    | .ok s2 =>
      match read_exact s2 w with
      | .error e => .error e
      | .ok (buf, s3) =>
        .ok ((match s3.endianness with
              | .BigEndian => from_be_bytes buf
              | .LittleEndian => from_le_bytes buf), s3)

/-- deserialize_u16 from src/de.rs. -/
def deserialize_u16 (s : DState) : Except Error (Nat × DState) :=
  deserialize_uN 2 s

/-- deserialize_u32 from src/de.rs. -/
def deserialize_u32 (s : DState) : Except Error (Nat × DState) :=
  deserialize_uN 4 s

/-- deserialize_u64 from src/de.rs. -/
def deserialize_u64 (s : DState) : Except Error (Nat × DState) :=
  deserialize_uN 8 s

/-- deserialize_bool from src/de.rs: one u8; 1 is true, 0 is false, any
other byte is InvalidBoolEncoding(byte). -/
def deserialize_bool (s : DState) : Except Error (Bool × DState) :=
  match deserialize_u8 s with
  | .error e => .error e
  | .ok (value, s1) =>
    match value with
    | 1 => .ok (true, s1)
    | 0 => .ok (false, s1)
    | v => .error (.InvalidBoolEncoding v)

/-- UTF8_CHAR_WIDTH table from src/de.rs (RFC 3629). -/
def UTF8_CHAR_WIDTH : List Nat :=
  [1, 1, 1, 1, 1, 1, 1, 1, 1, 1, 1, 1, 1, 1, 1, 1,
   1, 1, 1, 1, 1, 1, 1, 1, 1, 1, 1, 1, 1, 1, 1, 1,
   1, 1, 1, 1, 1, 1, 1, 1, 1, 1, 1, 1, 1, 1, 1, 1,
   1, 1, 1, 1, 1, 1, 1, 1, 1, 1, 1, 1, 1, 1, 1, 1,
   1, 1, 1, 1, 1, 1, 1, 1, 1, 1, 1, 1, 1, 1, 1, 1,
   1, 1, 1, 1, 1, 1, 1, 1, 1, 1, 1, 1, 1, 1, 1, 1,
   1, 1, 1, 1, 1, 1, 1, 1, 1, 1, 1, 1, 1, 1, 1, 1,
   1, 1, 1, 1, 1, 1, 1, 1, 1, 1, 1, 1, 1, 1, 1, 1,
   0, 0, 0, 0, 0, 0, 0, 0, 0, 0, 0, 0, 0, 0, 0, 0,
   0, 0, 0, 0, 0, 0, 0, 0, 0, 0, 0, 0, 0, 0, 0, 0,
   0, 0, 0, 0, 0, 0, 0, 0, 0, 0, 0, 0, 0, 0, 0, 0,
   0, 0, 0, 0, 0, 0, 0, 0, 0, 0, 0, 0, 0, 0, 0, 0,
   0, 0, 2, 2, 2, 2, 2, 2, 2, 2, 2, 2, 2, 2, 2, 2,
   2, 2, 2, 2, 2, 2, 2, 2, 2, 2, 2, 2, 2, 2, 2, 2,
   3, 3, 3, 3, 3, 3, 3, 3, 3, 3, 3, 3, 3, 3, 3, 3,
   4, 4, 4, 4, 0, 0, 0, 0, 0, 0, 0, 0, 0, 0, 0, 0]

/-- utf8_char_width from src/de.rs: table lookup on the first byte. -/
def utf8_char_width (first_byte : Nat) : Nat :=
  UTF8_CHAR_WIDTH.getD first_byte 0

/-- deserialize_char from src/de.rs: read one byte from the reader first;
if its UTF-8 width is not 1, fail with InvalidCharEncoding, otherwise
charge the size/position accounting and yield the code point. -/
def deserialize_char (s : DState) : Except Error (Nat × DState) :=
  match read_exact s 1 with
  | .error e => .error e
  | .ok (buf, s1) =>
    if utf8_char_width (buf.headD 0) ≠ 1 then .error .InvalidCharEncoding
    else
      match read_size s1 (utf8_char_width (buf.headD 0)) with
      | .error e => .error e
      | .ok s2 => .ok (buf.headD 0, s2)

/-- Deserializer::read_vec from src/de.rs: a u32 length (aligned,
endianness-subject), then charge len against pos and the limit, then read
len raw bytes. -/
def read_vec (s : DState) : Except Error (List Nat × DState) :=
  match deserialize_u32 s with
  | .error e => .error e
  | .ok (len, s1) =>
    match read_size s1 len with
    | .error e => .error e
    | .ok s2 =>
      match read_exact s2 len with
      | .error e => .error e
      | .ok (buf, s3) => .ok (buf, s3)

/-- True when b is a UTF-8 continuation byte (0x80..=0xBF). -/
def isCont (b : Nat) : Bool :=
  decide (0x80 ≤ b) && decide (b ≤ 0xBF)

/-- UTF-8 validation as performed by String::from_utf8: returns none on
valid input, and some i with i the length of the longest valid prefix
(Utf8Error::valid_up_to) on invalid input. -/
def utf8_check (i : Nat) (l : List Nat) : Option Nat :=
  match l with
  | [] => none
  | b :: rest =>
    if b ≤ 0x7F then utf8_check (i + 1) rest
    else if b < 0xC2 then some i
    else if b ≤ 0xDF then
      match rest with
      | c1 :: r => if isCont c1 then utf8_check (i + 2) r else some i
      | [] => some i
    else if b ≤ 0xEF then
      match rest with
      | c1 :: c2 :: r =>
        if (if b = 0xE0 then isCont c1 && decide (0xA0 ≤ c1)
            else if b = 0xED then isCont c1 && decide (c1 ≤ 0x9F)
            else isCont c1) && isCont c2
        then utf8_check (i + 3) r else some i
      | _ => some i
    else if b ≤ 0xF4 then
      match rest with
      | c1 :: c2 :: c3 :: r =>
        if (if b = 0xF0 then isCont c1 && decide (0x90 ≤ c1)
            else if b = 0xF4 then isCont c1 && decide (c1 ≤ 0x8F)
            else isCont c1) && isCont c2 && isCont c3
        then utf8_check (i + 4) r else some i
      | _ => some i
    else some i

/-- Deserializer::read_string from src/de.rs: read the count-prefixed
buffer, pop the final byte (the terminator, whose value is not checked),
then validate the remainder as UTF-8. -/
def read_string (s : DState) : Except Error (List Nat × DState) :=
  match read_vec s with
  | .error e => .error e
  | .ok (v, s1) =>
    match utf8_check 0 v.dropLast with
    | none => .ok (v.dropLast, s1)
    | some k => .error (.InvalidUtf8Encoding k)

/-- deserialize_option from src/de.rs: unconditionally TypeNotSupported,
the state is never touched. -/
def deserialize_option (_s : DState) : Except Error (Unit × DState) :=
  .error .TypeNotSupported

/-- deserialize_map from src/de.rs: unconditionally TypeNotSupported, the
state is never touched. -/
def deserialize_map (_s : DState) : Except Error (Unit × DState) :=
  .error .TypeNotSupported

/-- deserialize_any from src/de.rs: unconditionally
DeserializeAnyNotSupported, the state is never touched. -/
def deserialize_any (_s : DState) : Except Error (Unit × DState) :=
  .error .DeserializeAnyNotSupported

/-- TryFrom<[u8;4]> for RepresentationFormat from src/lib.rs: bytes 0-1 as
a big-endian u16, bytes 2-3 unused; ids 0-3 map to the four formats, all
others to InvalidEncapsulation. -/
def representation_format_try_from (b0 b1 _b2 _b3 : Nat) :
    Except Error RepresentationFormat :=
  match b0 * 256 + b1 with
  | 0 => .ok .CdrBe
  | 1 => .ok .CdrLe
  | 2 => .ok .PlCdrBe
  | 3 => .ok .PlCdrLe
  | _ => .error .InvalidEncapsulation

/-- Reading the [u8; 4] encapsulation header in deserialize_from: a serde
[u8; 4] decode is four u8 decodes in order. -/
def read_header (s : DState) :
    Except Error ((Nat × Nat × Nat × Nat) × DState) :=
  match deserialize_u8 s with
  | .error e => .error e
  | .ok (b0, s1) =>
    match deserialize_u8 s1 with
    | .error e => .error e
    | .ok (b1, s2) =>
      match deserialize_u8 s2 with
      | .error e => .error e
      | .ok (b2, s3) =>
        match deserialize_u8 s3 with
        | .error e => .error e
        | .ok (b3, s4) => .ok ((b0, b1, b2, b3), s4)

/-- deserialize_from of src/lib.rs up to the point where the payload decode
starts: build a CdrBe (big-endian) deserializer, read the 4 header bytes,
map them through TryFrom, switch the endianness to the decoded format, and
reset pos to 0.  The returned state is the one the payload is decoded
with. -/
def deserialize_from_prepare (input : List Nat) (limit : Option Nat) :
    Except Error DState :=
  let s : DState :=
    { input := input, pos := 0, endianness := Endianness.BigEndian,
      limit := limit, consumed := 0 }
  match read_header s with
  | .error e => .error e
  | .ok ((b0, b1, b2, b3), s1) =>
    match representation_format_try_from b0 b1 b2 b3 with
    | .error e => .error e
    | .ok fmt =>
      let s2 := { s1 with endianness := fmt.endianness }
      .ok { s2 with pos := 0 }

/-! Encoder and size pass.  src/ser.rs and src/size.rs are not among the
sources; both are modelled from the specification (sections 4.1-4.4) over
the abstract structured-value shape of section 3.  src/lib.rs, which is
among the sources, is embedded faithfully on top of them. -/

/-- Padding required before a value of width w at position pos, per the
spec rule padding = (w - (pos mod w)) mod w. -/
def padOf (pos w : Nat) : Nat :=
  (w - pos % w) % w

/-- Padding bytes actually emitted: that many zero bytes. -/
def padBytes (pos w : Nat) : List Nat :=
  List.replicate (padOf pos w) 0

/-- Big-endian byte string of n in w bytes (uXX::to_be_bytes). -/
def beBytes : Nat → Nat → List Nat
  | 0, _ => []
  | w + 1, n => beBytes w (n / 256) ++ [n % 256]

/-- Byte string of n in w bytes per the endianness e. -/
def numBytes (e : Endianness) (w n : Nat) : List Nat :=
  match e with
  | .BigEndian => beBytes w n
  | .LittleEndian => (beBytes w n).reverse

mutual
/-- Modelled from the spec: the abstract structured value shape of spec
section 3 (Primitive, FixedArray, Sequence, UTF8String, ByteBuffer,
Struct/TupleStruct, Enum).  Signed and float primitives share the
width-based layout of the unsigned primitive of the same width and are
represented by it here. -/
inductive Value where
  | u8 (n : Nat)
  | u16 (n : Nat)
  | u32 (n : Nat)
  | u64 (n : Nat)
  | boolean (b : Bool)
  | character (c : Nat)
  | str (bytes : List Nat)
  | byteBuf (bytes : List Nat)
  | seq (elems : ValueList)
  | arr (elems : ValueList)
  | strct (fields : ValueList)
  | enum (idx : Nat) (payload : ValueList)

/-- List of structured values (fields of a struct, elements of a
sequence or array, payload of an enum variant). -/
inductive ValueList where
  | nil
  | cons (v : Value) (vs : ValueList)
end

/-- Number of elements of a ValueList (the sequence count). -/
def ValueList.length : ValueList → Nat
  | .nil => 0
  | .cons _ vs => vs.length + 1

mutual
/-- Modelled from the spec: the data serializer of src/ser.rs (spec 4.1-4.3):
encode one value at payload position pos with endianness e and return the
bytes emitted, padding included.  Strings carry length content+1 and a 0x00
terminator; sequences and enums write an aligned u32 count or variant index
first; structs, tuple structs and fixed arrays are the plain concatenation
of their parts. -/
def encValue (e : Endianness) (pos : Nat) : Value → List Nat
  | .u8 n => [n % 256]
  | .u16 n => padBytes pos 2 ++ numBytes e 2 n
  | .u32 n => padBytes pos 4 ++ numBytes e 4 n
  | .u64 n => padBytes pos 8 ++ numBytes e 8 n
  | .boolean b => [if b then 1 else 0]
  | .character c => [c % 256]
  | .str bs => padBytes pos 4 ++ numBytes e 4 (bs.length + 1) ++ bs ++ [0]
  | .byteBuf bs => padBytes pos 4 ++ numBytes e 4 bs.length ++ bs
  | .seq vs =>
    padBytes pos 4 ++ numBytes e 4 vs.length ++
      encList e (pos + padOf pos 4 + 4) vs
  | .arr vs => encList e pos vs
  | .strct vs => encList e pos vs
  | .enum idx payload =>
    padBytes pos 4 ++ numBytes e 4 idx ++
      encList e (pos + padOf pos 4 + 4) payload

/-- Encode a list of values in order, threading the position. -/
def encList (e : Endianness) (pos : Nat) : ValueList → List Nat
  | .nil => []
  | .cons v vs =>
    let b := encValue e pos v
    b ++ encList e (pos + b.length) vs
end

mutual
/-- Modelled from the spec: the size dry run of src/size.rs (spec 4.4):
same alignment and position arithmetic as encValue against a pure counter,
endianness-agnostic. -/
def sizeValue (pos : Nat) : Value → Nat
  | .u8 _ => 1
  | .u16 _ => padOf pos 2 + 2
  | .u32 _ => padOf pos 4 + 4
  | .u64 _ => padOf pos 8 + 8
  | .boolean _ => 1
  | .character _ => 1
  | .str bs => padOf pos 4 + 4 + (bs.length + 1)
  | .byteBuf bs => padOf pos 4 + 4 + bs.length
  | .seq vs => padOf pos 4 + 4 + sizeList (pos + padOf pos 4 + 4) vs
  | .arr vs => sizeList pos vs
  | .strct vs => sizeList pos vs
  | .enum _ payload =>
    padOf pos 4 + 4 + sizeList (pos + padOf pos 4 + 4) payload

/-- Size of a list of values in order, threading the position. -/
def sizeList (pos : Nat) : ValueList → Nat
  | .nil => 0
  | .cons v vs =>
    let sz := sizeValue pos v
    sz + sizeList (pos + sz) vs
end

/-- ENCAPSULATION_HEADER_SIZE from src/lib.rs. -/
def ENCAPSULATION_HEADER_SIZE : Nat := 4

/-- Modelled from the spec: size::calc_serialized_data_size of src/size.rs,
the total payload size from position 0. -/
def calc_serialized_data_size (v : Value) : Nat :=
  sizeValue 0 v

/-- Modelled from the spec: size::calc_serialized_data_size_bounded of
src/size.rs.  The bounded pass fails with SizeLimit as soon as the running
total exceeds max; since the total only grows, the outcome is an error
exactly when the final data size exceeds max. -/
def calc_serialized_data_size_bounded (v : Value) (max : Nat) :
    Except Error Nat :=
  let sz := sizeValue 0 v
  if sz ≤ max then .ok sz else .error .SizeLimit

/-- calc_serialized_size from src/lib.rs: exactly
size::calc_serialized_data_size(value) - the addition of
ENCAPSULATION_HEADER_SIZE is commented out in the source. -/
def calc_serialized_size (v : Value) : Nat :=
  calc_serialized_data_size v

/-- calc_serialized_size_bounded from src/lib.rs: error if max is below the
header size, otherwise run the bounded data-size pass against max itself
(the source passes max, not max minus the header) and add the header size
to its result. -/
def calc_serialized_size_bounded (v : Value) (max : Nat) :
    Except Error Nat :=
  if max < ENCAPSULATION_HEADER_SIZE then .error .SizeLimit
  else (calc_serialized_data_size_bounded v max).map
    (fun size => size + ENCAPSULATION_HEADER_SIZE)

/-- Header bytes written by serialize_into of src/lib.rs: the format id and
the zero option field, two u16s written through a CdrBe serializer, hence
always big-endian, at positions 0 and 2 (no padding). -/
def header_bytes (fmt : RepresentationFormat) : List Nat :=
  numBytes .BigEndian 2 fmt.id ++ numBytes .BigEndian 2 fmt.option

/-- serialize_into from src/lib.rs: when a bounded limit is given, run
calc_serialized_size_bounded first and return its error with nothing
written (the check precedes the construction of the serializer); otherwise
write the header, switch to the requested format, reset pos, and encode the
value.  The result is the byte list written so far paired with the error,
if any. -/
def serialize_into (v : Value) (fmt : RepresentationFormat)
    (limit : Option Nat) : List Nat × Option Error :=
  match limit with
  | some max =>
    match calc_serialized_size_bounded v max with
    | .error e => ([], some e)
    | .ok _ => (header_bytes fmt ++ encValue fmt.endianness 0 v, none)
  | none => (header_bytes fmt ++ encValue fmt.endianness 0 v, none)

/-- serialize from src/lib.rs with the Infinite (unbounded) limit: presize
from calc_serialized_size, then serialize_into with Infinite; the writer is
a Vec, which never fails. -/
def serialize (v : Value) (fmt : RepresentationFormat) : List Nat :=
  (serialize_into v fmt none).1

/-! Helper lemmas about the deserializer primitives. -/

lemma deserialize_u8_cons (b : Nat) (rest : List Nat) (pos : Nat)
    (e : Endianness) (c : Nat) :
    deserialize_u8 ⟨b :: rest, pos, e, none, c⟩ =
      .ok (b, ⟨rest, pos + 1, e, none, c + 1⟩) := by
  unfold deserialize_u8 read_size size_limit_add read_exact
  simp

lemma deserialize_i8_cons (b : Nat) (rest : List Nat) (pos : Nat)
    (e : Endianness) (c : Nat) :
    deserialize_i8 ⟨b :: rest, pos, e, none, c⟩ =
      .ok (if b < 128 then (b : Int) else (b : Int) - 256,
           ⟨rest, pos + 1, e, none, c + 1⟩) := by
  unfold deserialize_i8 read_size size_limit_add read_exact
  simp

set_option maxRecDepth 2000 in
lemma utf8_char_width_ascii (b : Nat) (h : b ≤ 0x7F) :
    utf8_char_width b = 1 := by
  have hb : ∀ x : Nat, x < 128 → utf8_char_width x = 1 := by decide
  exact hb b (by omega)

set_option maxRecDepth 4000 in
lemma utf8_char_width_ne_one (b : Nat) (h : 0x80 ≤ b) :
    utf8_char_width b ≠ 1 := by
  by_cases hb : b < 256
  · have hall : ∀ x : Nat, x < 256 → 128 ≤ x → utf8_char_width x ≠ 1 := by
      decide
    exact hall b hb h
  · have hlen : UTF8_CHAR_WIDTH.length ≤ b := by
      have : UTF8_CHAR_WIDTH.length = 256 := by decide
      omega
    unfold utf8_char_width
    rw [List.getD_eq_default _ _ hlen]
    omega

lemma read_padding_of_spec (inp : List Nat) (pos : Nat) (e : Endianness)
    (c w : Nat) (hw : w = 2 ∨ w = 4 ∨ w = 8)
    (hlen : padOf pos w ≤ inp.length) :
    read_padding_of ⟨inp, pos, e, none, c⟩ w =
      .ok ⟨inp.drop (padOf pos w), pos + padOf pos w, e, none,
           c + padOf pos w⟩ := by
  have hw0 : 0 < w := by rcases hw with h | h | h <;> omega
  have hmask : Nat.land pos (w - 1) = pos % w := by
    rcases hw with h | h | h <;> subst h
    · exact Nat.and_pow_two_sub_one_eq_mod pos 1
    · exact Nat.and_pow_two_sub_one_eq_mod pos 2
    · exact Nat.and_pow_two_sub_one_eq_mod pos 3
  have hplt : pos % w < w := Nat.mod_lt _ hw0
  unfold read_padding_of
  rcases hp : pos % w with _ | n
  · have hpad : padOf pos w = 0 := by
      unfold padOf; rw [hp, Nat.sub_zero, Nat.mod_self]
    simp only [hmask, hp, hpad]
    simp
  · have hpad : padOf pos w = w - (n + 1) := by
      unfold padOf
      rw [hp]
      exact Nat.mod_eq_of_lt (by omega)
    rw [hpad] at hlen
    simp only [hmask, hp]
    simp [read_size, size_limit_add, read_exact, hlen, hpad]

lemma deserialize_uN_spec (inp : List Nat) (pos : Nat) (e : Endianness)
    (c w : Nat) (hw : w = 2 ∨ w = 4 ∨ w = 8)
    (hlen : padOf pos w + w ≤ inp.length) :
    deserialize_uN w ⟨inp, pos, e, none, c⟩ =
      .ok ((match e with
            | .BigEndian => from_be_bytes ((inp.drop (padOf pos w)).take w)
            | .LittleEndian => from_le_bytes ((inp.drop (padOf pos w)).take w)),
           ⟨inp.drop (padOf pos w + w), pos + (padOf pos w + w), e, none,
            c + (padOf pos w + w)⟩) := by
  have hdlen : w ≤ inp.length - padOf pos w := by omega
  unfold deserialize_uN
  rw [read_padding_of_spec inp pos e c w hw (by omega)]
  simp [read_size, size_limit_add, read_exact, hdlen, List.drop_drop]
  constructorm* _ ∧ _ <;> omega

/-- Claim C4: for the multi-byte widths w of 2, 4 and 8, decoding first
skips exactly (w - pos mod w) mod w padding bytes and a primitive decode
advances pos by padding + w; the bit mask pos land (w-1) of the source
equals pos mod w for every w among 1, 2, 4, 8; after the padding the
position is w-aligned; and the 1-byte decodes (u8 and i8) never consume
padding and advance pos by exactly 1. -/
theorem alignment_padding_rule (inp : List Nat) (pos : Nat)
    (e : Endianness) (c : Nat) :
    (∀ p : Nat, Nat.land p 0 = p % 1 ∧ Nat.land p 1 = p % 2 ∧
       Nat.land p 3 = p % 4 ∧ Nat.land p 7 = p % 8) ∧
    (∀ w, (w = 2 ∨ w = 4 ∨ w = 8) → padOf pos w ≤ inp.length →
       read_padding_of ⟨inp, pos, e, none, c⟩ w =
         .ok ⟨inp.drop (padOf pos w), pos + padOf pos w, e, none,
              c + padOf pos w⟩ ∧
       (pos + padOf pos w) % w = 0) ∧
    (∀ w, (w = 2 ∨ w = 4 ∨ w = 8) → padOf pos w + w ≤ inp.length →
       ∃ v, deserialize_uN w ⟨inp, pos, e, none, c⟩ =
         .ok (v, ⟨inp.drop (padOf pos w + w), pos + (padOf pos w + w), e,
                  none, c + (padOf pos w + w)⟩)) ∧
    (∀ b rest, deserialize_u8 ⟨b :: rest, pos, e, none, c⟩ =
       .ok (b, ⟨rest, pos + 1, e, none, c + 1⟩)) ∧
    (∀ b rest, ∃ v, deserialize_i8 ⟨b :: rest, pos, e, none, c⟩ =
       .ok (v, ⟨rest, pos + 1, e, none, c + 1⟩)) := by
  refine ⟨?_, ?_, ?_, ?_, ?_⟩
  · intro p
    exact ⟨Nat.and_pow_two_sub_one_eq_mod p 0,
           Nat.and_pow_two_sub_one_eq_mod p 1,
           Nat.and_pow_two_sub_one_eq_mod p 2,
           Nat.and_pow_two_sub_one_eq_mod p 3⟩
  · intro w hw hlen
    refine ⟨read_padding_of_spec inp pos e c w hw hlen, ?_⟩
    unfold padOf
    rcases hw with h | h | h <;> subst h <;> omega
  · intro w hw hlen
    exact ⟨_, deserialize_uN_spec inp pos e c w hw hlen⟩
  · intro b rest
    exact deserialize_u8_cons b rest pos e c
  · intro b rest
    exact ⟨_, deserialize_i8_cons b rest pos e c⟩

/-- Witness for alignment_padding_rule: skipping one padding byte before a
u16 at an odd position, and the mask arithmetic at position 5. -/
theorem alignment_padding_rule_witness :
    (read_padding_of ⟨[9, 9, 9], 1, Endianness.BigEndian, none, 0⟩ 2 =
       .ok ⟨[9, 9], 2, Endianness.BigEndian, none, 1⟩ ∧
     (1 + padOf 1 2) % 2 = 0) ∧
    Nat.land 5 3 = 5 % 4 := by
  constructor
  · exact (alignment_padding_rule [9, 9, 9] 1 Endianness.BigEndian 0).2.1 2
      (Or.inl rfl) (by decide)
  · exact ((alignment_padding_rule [] 0 Endianness.BigEndian 0).1 5).2.2.1

/-- Claim C5: decoding a boolean consumes exactly one byte; byte 1 decodes
to true, byte 0 to false, and every other byte b fails with
InvalidBoolEncoding(b); in particular byte 0x02 fails with
InvalidBoolEncoding(2) and is never silently coerced. -/
theorem bool_decode_exact (b : Nat) (rest : List Nat) (pos : Nat)
    (e : Endianness) (c : Nat) :
    (deserialize_bool ⟨b :: rest, pos, e, none, c⟩ =
      if b = 1 then .ok (true, ⟨rest, pos + 1, e, none, c + 1⟩)
      else if b = 0 then .ok (false, ⟨rest, pos + 1, e, none, c + 1⟩)
      else .error (.InvalidBoolEncoding b)) ∧
    deserialize_bool ⟨[2], 0, Endianness.BigEndian, none, 0⟩ =
      .error (.InvalidBoolEncoding 2) := by
  constructor
  · unfold deserialize_bool
    rw [deserialize_u8_cons]
    rcases b with _ | _ | n <;> simp
  · rfl

/-- Claim C6: decoding a character reads exactly one byte with no
alignment padding; every byte whose UTF-8 width is not 1 (every byte at or
above 0x80) fails with InvalidCharEncoding, every byte up to 0x7F succeeds
with that code point; in particular lead byte 0xC3 fails with
InvalidCharEncoding. -/
theorem char_decode_single_byte (b : Nat) (rest : List Nat) (pos : Nat)
    (e : Endianness) (c : Nat) :
    (b ≤ 0x7F →
      deserialize_char ⟨b :: rest, pos, e, none, c⟩ =
        .ok (b, ⟨rest, pos + 1, e, none, c + 1⟩)) ∧
    (0x80 ≤ b →
      deserialize_char ⟨b :: rest, pos, e, none, c⟩ =
        .error .InvalidCharEncoding) ∧
    deserialize_char ⟨[0xC3], 0, Endianness.BigEndian, none, 0⟩ =
      .error .InvalidCharEncoding := by
  refine ⟨fun h => ?_, fun h => ?_, rfl⟩
  · unfold deserialize_char
    simp [read_exact, utf8_char_width_ascii b h, read_size, size_limit_add]
  · unfold deserialize_char
    simp [read_exact, utf8_char_width_ne_one b h]

/-- Witness for char_decode_single_byte at byte 0x41. -/
theorem char_decode_single_byte_witness :
    deserialize_char ⟨[0x41], 5, Endianness.LittleEndian, none, 2⟩ =
      .ok (0x41, ⟨[], 6, Endianness.LittleEndian, none, 3⟩) :=
  (char_decode_single_byte 0x41 [] 5 Endianness.LittleEndian 2).1
    (by decide)

lemma read_header_cons (b0 b1 b2 b3 : Nat) (rest : List Nat) :
    read_header ⟨b0 :: b1 :: b2 :: b3 :: rest, 0, Endianness.BigEndian,
                 none, 0⟩ =
      .ok ((b0, b1, b2, b3), ⟨rest, 4, Endianness.BigEndian, none, 4⟩) := by
  simp [read_header, deserialize_u8_cons]

/-- Claim C3: deserialize_from reads the 4 header bytes with a fixed
(big-endian) byte order, maps bytes 0-1 as a big-endian u16 id with
0 = CdrBe, 1 = CdrLe, 2 = PlCdrBe, 3 = PlCdrLe, fails with
InvalidEncapsulation on every other id, ignores bytes 2-3 entirely (they
are universally quantified below), switches the payload endianness to the
decoded format's, and resets pos to 0 before the payload is decoded. -/
theorem header_decode (b0 b1 b2 b3 : Nat) (rest : List Nat) :
    (b0 * 256 + b1 = 0 →
      deserialize_from_prepare (b0 :: b1 :: b2 :: b3 :: rest) none =
        .ok ⟨rest, 0, Endianness.BigEndian, none, 4⟩) ∧
    (b0 * 256 + b1 = 1 →
      deserialize_from_prepare (b0 :: b1 :: b2 :: b3 :: rest) none =
        .ok ⟨rest, 0, Endianness.LittleEndian, none, 4⟩) ∧
    (b0 * 256 + b1 = 2 →
      deserialize_from_prepare (b0 :: b1 :: b2 :: b3 :: rest) none =
        .ok ⟨rest, 0, Endianness.BigEndian, none, 4⟩) ∧
    (b0 * 256 + b1 = 3 →
      deserialize_from_prepare (b0 :: b1 :: b2 :: b3 :: rest) none =
        .ok ⟨rest, 0, Endianness.LittleEndian, none, 4⟩) ∧
    (4 ≤ b0 * 256 + b1 →
      deserialize_from_prepare (b0 :: b1 :: b2 :: b3 :: rest) none =
        .error .InvalidEncapsulation) := by
  refine ⟨?_, ?_, ?_, ?_, ?_⟩ <;> intro h <;>
    simp only [deserialize_from_prepare, read_header_cons,
               representation_format_try_from]
  · rw [h]
    simp [RepresentationFormat.endianness]
  · rw [h]
    simp [RepresentationFormat.endianness]
  · rw [h]
    simp [RepresentationFormat.endianness]
  · rw [h]
    simp [RepresentationFormat.endianness]
  · obtain ⟨m, hm⟩ : ∃ m, b0 * 256 + b1 = m + 4 := ⟨b0 * 256 + b1 - 4, by omega⟩
    rw [hm]
    simp

/-- Witness for header_decode: id 0x0001 with nonzero reserved bytes
selects CdrLe (little-endian payload) with pos reset to 0, and id 0x0004
is rejected. -/
theorem header_decode_witness :
    deserialize_from_prepare [0, 1, 0xAB, 0xCD, 42] none =
      .ok ⟨[42], 0, Endianness.LittleEndian, none, 4⟩ ∧
    deserialize_from_prepare [0, 4, 0, 0] none =
      .error .InvalidEncapsulation :=
  ⟨(header_decode 0 1 0xAB 0xCD [42]).2.1 (by decide),
   (header_decode 0 4 0 0 []).2.2.2.2 (by decide)⟩

lemma read_vec_spec (b0 b1 b2 b3 : Nat) (body rest : List Nat)
    (pos c : Nat) (e : Endianness) (hpos : pos % 4 = 0)
    (hlen : body.length =
      match e with
      | .BigEndian => from_be_bytes [b0, b1, b2, b3]
      | .LittleEndian => from_le_bytes [b0, b1, b2, b3]) :
    read_vec ⟨b0 :: b1 :: b2 :: b3 :: (body ++ rest), pos, e, none, c⟩ =
      .ok (body,
           ⟨rest, pos + 4 + body.length, e, none, c + 4 + body.length⟩) := by
  have hpad : padOf pos 4 = 0 := by
    unfold padOf
    rw [hpos]
  have hlen4 : padOf pos 4 + 4 ≤
      (b0 :: b1 :: b2 :: b3 :: (body ++ rest)).length := by
    simp [hpad]
  have hu32 := deserialize_uN_spec (b0 :: b1 :: b2 :: b3 :: (body ++ rest))
    pos e c 4 (by right; left; rfl) hlen4
  rw [hpad] at hu32
  simp only [List.drop_zero, Nat.zero_add] at hu32
  have htake : List.take 4 (b0 :: b1 :: b2 :: b3 :: (body ++ rest)) =
      [b0, b1, b2, b3] := rfl
  have hdrop : List.drop 4 (b0 :: b1 :: b2 :: b3 :: (body ++ rest)) =
      body ++ rest := rfl
  rw [htake, hdrop] at hu32
  cases e with
  | BigEndian =>
    simp only at hlen
    unfold read_vec deserialize_u32
    rw [hu32]
    simp only []
    rw [← hlen]
    simp [read_size, size_limit_add, read_exact]
  | LittleEndian =>
    simp only at hlen
    unfold read_vec deserialize_u32
    rw [hu32]
    simp only []
    rw [← hlen]
    simp [read_size, size_limit_add, read_exact]

/-- Claim C7: string decode reads an aligned 4-byte length n in the active
endianness and then n raw bytes; the last byte is removed without its value
being checked (the terminator position below is universally quantified over
all byte values via body), and the remaining bytes must be valid UTF-8,
otherwise the decode fails with InvalidUtf8Encoding carrying the
validation failure; in particular, under CdrBe the bytes
00 00 00 03 41 42 00 decode to the two bytes of the string AB, and
00 00 00 01 00 decodes to the empty string. -/
theorem string_decode (b0 b1 b2 b3 : Nat) (body rest : List Nat)
    (pos c : Nat) (e : Endianness) (hpos : pos % 4 = 0)
    (hlen : body.length =
      match e with
      | .BigEndian => from_be_bytes [b0, b1, b2, b3]
      | .LittleEndian => from_le_bytes [b0, b1, b2, b3]) :
    (read_string ⟨b0 :: b1 :: b2 :: b3 :: (body ++ rest), pos, e, none, c⟩ =
      match utf8_check 0 body.dropLast with
      | none => .ok (body.dropLast,
          ⟨rest, pos + 4 + body.length, e, none, c + 4 + body.length⟩)
      | some k => .error (.InvalidUtf8Encoding k)) ∧
    read_string ⟨[0, 0, 0, 3, 0x41, 0x42, 0], 0, Endianness.BigEndian,
                 none, 0⟩ =
      .ok ([0x41, 0x42], ⟨[], 7, Endianness.BigEndian, none, 7⟩) ∧
    read_string ⟨[0, 0, 0, 1, 0], 0, Endianness.BigEndian, none, 0⟩ =
      .ok ([], ⟨[], 5, Endianness.BigEndian, none, 5⟩) := by
  refine ⟨?_, rfl, rfl⟩
  unfold read_string
  rw [read_vec_spec b0 b1 b2 b3 body rest pos c e hpos hlen]

/-- Witness for string_decode: a two-byte CdrLe string body with an
invalid UTF-8 byte before the terminator fails with InvalidUtf8Encoding,
through the general case of the theorem. -/
theorem string_decode_witness :
    read_string ⟨[2, 0, 0, 0, 0xC3, 0], 0, Endianness.LittleEndian,
                 none, 0⟩ =
      .error (.InvalidUtf8Encoding 0) :=
  (string_decode 2 0 0 0 [0xC3, 0] [] 0 0 Endianness.LittleEndian
    (by decide) (by decide)).1

/-- Claim C10: a wire string whose 4-byte length prefix is 0 is accepted:
the decode returns the empty string, the terminator-removal is a no-op on
the empty payload, and no terminator byte is required or consumed; yet the
encoder always writes length content+1 with a terminator byte, so the
length field it emits is never 0. -/
theorem zero_length_string_decode :
    (∀ (rest : List Nat) (pos c : Nat) (e : Endianness), pos % 4 = 0 →
      read_string ⟨0 :: 0 :: 0 :: 0 :: rest, pos, e, none, c⟩ =
        .ok ([], ⟨rest, pos + 4, e, none, c + 4⟩)) ∧
    (∀ (e : Endianness) (pos : Nat) (bs : List Nat),
      encValue e pos (.str bs) =
        padBytes pos 4 ++ numBytes e 4 (bs.length + 1) ++ bs ++ [0] ∧
      bs.length + 1 ≠ 0) := by
  constructor
  · intro rest pos c e hpos
    have h := (string_decode 0 0 0 0 [] rest pos c e hpos
      (by cases e <;> rfl)).1
    simpa using h
  · intro e pos bs
    exact ⟨by simp [encValue], by omega⟩

/-- Witness for zero_length_string_decode: length prefix 0 with trailing
junk decodes to the empty string consuming only the 4 length bytes. -/
theorem zero_length_string_decode_witness :
    read_string ⟨[0, 0, 0, 0, 9, 9], 8, Endianness.BigEndian, none, 3⟩ =
      .ok ([], ⟨[9, 9], 12, Endianness.BigEndian, none, 7⟩) :=
  zero_length_string_decode.1 [9, 9] 8 3 Endianness.BigEndian (by decide)

/-! Inversion lemmas used for the position-accounting claim. -/

lemma size_limit_add_inv {s : DState} {n : Nat} {s' : DState}
    (h : size_limit_add s n = .ok s') :
    s' = { s with consumed := s.consumed + n } := by
  unfold size_limit_add at h
  split at h
  · simp at h
    exact h.symm
  · split at h
    · simp at h
      exact h.symm
    · simp at h

lemma read_size_inv {s : DState} {n : Nat} {s' : DState}
    (h : read_size s n = .ok s') :
    s' = { s with pos := s.pos + n, consumed := s.consumed + n } := by
  unfold read_size at h
  exact size_limit_add_inv h

lemma read_exact_inv {s : DState} {n : Nat} {bs : List Nat} {s' : DState}
    (h : read_exact s n = .ok (bs, s')) :
    n ≤ s.input.length ∧ bs = s.input.take n ∧
      s' = { s with input := s.input.drop n } := by
  unfold read_exact at h
  split at h
  · simp at h
    exact ⟨by assumption, h.1.symm, h.2.symm⟩
  · simp at h

/-- The property that a successful decode step consumes amt bytes from the
reader and advances both pos and the limit's running total by exactly that
amt: the position counter tracks consumption precisely. -/
def advances {α : Type} (f : DState → Except Error (α × DState)) : Prop :=
  ∀ s r s', f s = .ok (r, s') →
    ∃ amt, amt ≤ s.input.length ∧
      s' = { s with pos := s.pos + amt, input := s.input.drop amt,
                    consumed := s.consumed + amt }

lemma read_padding_of_inv {s : DState} {a : Nat} {s' : DState}
    (h : read_padding_of s a = .ok s') :
    ∃ amt, amt ≤ s.input.length ∧
      s' = { s with pos := s.pos + amt, input := s.input.drop amt,
                    consumed := s.consumed + amt } := by
  unfold read_padding_of at h
  split at h
  · simp at h
    exact ⟨0, by simp, by simp [← h]⟩
  · split at h
    next e heq => simp at h
    next t1 heq =>
      split at h
      next e2 heq2 => simp at h
      next bs t2 heq2 =>
        simp at h
        obtain h1 := read_size_inv heq
        subst h1
        obtain ⟨hle, -, h3⟩ := read_exact_inv heq2
        subst h
        refine ⟨_, hle, ?_⟩
        rw [h3]

lemma deserialize_u8_adv : advances deserialize_u8 := by
  intro s r s' h
  unfold deserialize_u8 at h
  split at h
  next e heq => simp at h
  next s1 heq =>
    split at h
    next e2 heq2 => simp at h
    next bs s2 heq2 =>
      simp at h
      obtain h1 := read_size_inv heq
      subst h1
      obtain ⟨hle, -, h3⟩ := read_exact_inv heq2
      simp at hle h3
      refine ⟨1, hle, ?_⟩
      rw [← h.2, h3]
      simp [List.drop_one]

lemma deserialize_i8_adv : advances deserialize_i8 := by
  intro s r s' h
  unfold deserialize_i8 at h
  split at h
  next e heq => simp at h
  next s1 heq =>
    split at h
    next e2 heq2 => simp at h
    next bs s2 heq2 =>
      simp at h
      obtain h1 := read_size_inv heq
      subst h1
      obtain ⟨hle, -, h3⟩ := read_exact_inv heq2
      simp at hle h3
      refine ⟨1, hle, ?_⟩
      rw [← h.2, h3]
      simp [List.drop_one]

lemma deserialize_uN_adv (w : Nat) : advances (deserialize_uN w) := by
  intro s r s' h
  unfold deserialize_uN at h
  split at h
  next e heq => simp at h
  next s1 heq =>
    split at h
    next e2 heq2 => simp at h
    next s2 heq2 =>
      split at h
      next e3 heq3 => simp at h
      next bs s3 heq3 =>
        simp at h
        obtain ⟨amt, hamt, h1⟩ := read_padding_of_inv heq
        subst h1
        obtain h2 := read_size_inv heq2
        subst h2
        obtain ⟨hle, -, h3⟩ := read_exact_inv heq3
        simp [List.length_drop] at hle h3
        refine ⟨amt + w, by omega, ?_⟩
        rw [← h.2, h3]
        simp [List.drop_drop]
        constructorm* _ ∧ _ <;> omega

lemma deserialize_bool_adv : advances deserialize_bool := by
  intro s r s' h
  unfold deserialize_bool at h
  split at h
  next e heq => simp at h
  next v s1 heq =>
    obtain ⟨amt, hamt, h1⟩ := deserialize_u8_adv s v s1 heq
    split at h
    · simp at h
      exact ⟨amt, hamt, by rw [← h.2, h1]⟩
    · simp at h
      exact ⟨amt, hamt, by rw [← h.2, h1]⟩
    · simp at h

lemma deserialize_char_adv : advances deserialize_char := by
  intro s r s' h
  unfold deserialize_char at h
  split at h
  next e heq => simp at h
  next bs s1 heq =>
    obtain ⟨hle, -, h1⟩ := read_exact_inv heq
    subst h1
    split at h
    · simp at h
    · rename_i hw
      simp only [ne_eq, not_not] at hw
      split at h
      next e2 heq2 => simp at h
      next s2 heq2 =>
        simp at h
        obtain h2 := read_size_inv heq2
        rw [hw] at h2
        refine ⟨1, hle, ?_⟩
        rw [← h.2, h2]

lemma read_vec_adv : advances read_vec := by
  intro s r s' h
  unfold read_vec at h
  split at h
  next e heq => simp at h
  next len s1 heq =>
    split at h
    next e2 heq2 => simp at h
    next s2 heq2 =>
      split at h
      next e3 heq3 => simp at h
      next bs s3 heq3 =>
        simp at h
        obtain ⟨amt, hamt, h1⟩ := deserialize_uN_adv 4 s len s1 heq
        subst h1
        obtain h2 := read_size_inv heq2
        subst h2
        obtain ⟨hle, -, h3⟩ := read_exact_inv heq3
        simp [List.length_drop] at hle h3
        refine ⟨amt + len, by omega, ?_⟩
        rw [← h.2, h3]
        simp [List.drop_drop]
        constructorm* _ ∧ _ <;> omega

lemma read_string_adv : advances read_string := by
  intro s r s' h
  unfold read_string at h
  split at h
  next e heq => simp at h
  next v s1 heq =>
    obtain ⟨amt, hamt, h1⟩ := read_vec_adv s v s1 heq
    split at h
    · simp at h
      exact ⟨amt, hamt, by rw [← h.2, h1]⟩
    · simp at h

/-- Claim C9: throughout a decode, the position counter advances by exactly
the number of payload bytes consumed from the reader: every decode
operation (u8, i8, the shared multi-byte body at every width hence u16,
u32 and u64, bool, char with its read-before-accounting, and the
count-prefixed reads read_vec and read_string which add the length before
reading) satisfies the advances predicate, so a successful call moves pos
and the consumed total by the very byte count removed from the input. -/
theorem position_tracks_consumption :
    advances deserialize_u8 ∧ advances deserialize_i8 ∧
    (∀ w, advances (deserialize_uN w)) ∧ advances deserialize_bool ∧
    advances deserialize_char ∧ advances read_vec ∧
    advances read_string :=
  ⟨deserialize_u8_adv, deserialize_i8_adv, deserialize_uN_adv,
   deserialize_bool_adv, deserialize_char_adv, read_vec_adv,
   read_string_adv⟩

/-- Witness for position_tracks_consumption: the char decode of byte 0x41
from a two-byte input consumes one byte, and pos and consumed advance by
exactly that one byte. -/
theorem position_tracks_consumption_witness :
    ∃ amt, amt ≤ ([0x41, 0x42] : List Nat).length ∧
      (⟨[0x42], 3, Endianness.BigEndian, none, 1⟩ : DState) =
        { (⟨[0x41, 0x42], 2, Endianness.BigEndian, none, 0⟩ : DState) with
          pos := 2 + amt, input := List.drop amt [0x41, 0x42],
          consumed := 0 + amt } :=
  position_tracks_consumption.2.2.2.2.1
    ⟨[0x41, 0x42], 2, Endianness.BigEndian, none, 0⟩ 0x41
    ⟨[0x42], 3, Endianness.BigEndian, none, 1⟩ rfl

/-- Claim C8: decoding an option or a map fails with TypeNotSupported and
decoding with deserialize_any fails with DeserializeAnyNotSupported, in
every deserializer state, so before any input byte is consumed. -/
theorem unsupported_shapes_fail (s : DState) :
    deserialize_option s = .error .TypeNotSupported ∧
    deserialize_map s = .error .TypeNotSupported ∧
    deserialize_any s = .error .DeserializeAnyNotSupported :=
  ⟨rfl, rfl, rfl⟩

/-! Size pass vs encoder. -/

lemma beBytes_length (w n : Nat) : (beBytes w n).length = w := by
  induction w generalizing n with
  | zero => rfl
  | succ w ih => simp [beBytes, ih]

lemma numBytes_length (e : Endianness) (w n : Nat) :
    (numBytes e w n).length = w := by
  cases e <;> simp [numBytes, beBytes_length]

lemma padBytes_length (pos w : Nat) :
    (padBytes pos w).length = padOf pos w := by
  simp [padBytes]

mutual
theorem encValue_length (e : Endianness) (pos : Nat) (v : Value) :
    (encValue e pos v).length = sizeValue pos v := by
  cases v with
  | u8 n => rfl
  | u16 n => simp [encValue, sizeValue, padBytes_length, numBytes_length]
  | u32 n => simp [encValue, sizeValue, padBytes_length, numBytes_length]
  | u64 n => simp [encValue, sizeValue, padBytes_length, numBytes_length]
  | boolean b => rfl
  | character c => rfl
  | str bs =>
    simp [encValue, sizeValue, padBytes_length, numBytes_length]
    omega
  | byteBuf bs =>
    simp [encValue, sizeValue, padBytes_length, numBytes_length]
    omega
  | seq vs =>
    have h := encList_length e (pos + padOf pos 4 + 4) vs
    simp [encValue, sizeValue, padBytes_length, numBytes_length, h]
    omega
  | arr vs =>
    have h := encList_length e pos vs
    simp [encValue, sizeValue, h]
  | strct vs =>
    have h := encList_length e pos vs
    simp [encValue, sizeValue, h]
  | enum idx payload =>
    have h := encList_length e (pos + padOf pos 4 + 4) payload
    simp [encValue, sizeValue, padBytes_length, numBytes_length, h]
    omega

theorem encList_length (e : Endianness) (pos : Nat) (vs : ValueList) :
    (encList e pos vs).length = sizeList pos vs := by
  cases vs with
  | nil => rfl
  | cons v vs =>
    have h1 := encValue_length e pos v
    have h2 := encList_length e (pos + sizeValue pos v) vs
    simp [encList, sizeList, h1, h2]
end

lemma serialize_length (v : Value) (fmt : RepresentationFormat) :
    (serialize v fmt).length =
      sizeValue 0 v + ENCAPSULATION_HEADER_SIZE := by
  unfold serialize serialize_into header_bytes
  simp [numBytes_length, encValue_length, ENCAPSULATION_HEADER_SIZE]
  omega

/-- Claim C1 (refuted, code bug): the serialized output is always exactly
ENCAPSULATION_HEADER_SIZE bytes longer than calc_serialized_size reports,
because the source returns the payload size only - the addition of the
header size is commented out in src/lib.rs - while serialize always writes
the 4-byte header; at the single-byte value u8 32 the size pass reports 1
but serialize yields the 5 bytes 00 00 00 00 20. -/
theorem calc_serialized_size_omits_header :
    (∀ (v : Value) (fmt : RepresentationFormat),
      (serialize v fmt).length =
        calc_serialized_size v + ENCAPSULATION_HEADER_SIZE) ∧
    calc_serialized_size (Value.u8 32) = 1 ∧
    serialize (Value.u8 32) RepresentationFormat.CdrBe = [0, 0, 0, 0, 32] ∧
    (serialize (Value.u8 32) RepresentationFormat.CdrBe).length ≠
      calc_serialized_size (Value.u8 32) :=
  ⟨fun v fmt => serialize_length v fmt, rfl, rfl, by decide⟩

/-- Claim C2 (refuted, code bug): calc_serialized_size_bounded checks the
payload size against the whole budget max instead of max minus the header,
then adds the header size to the result, so a total that exceeds max by up
to 4 bytes is accepted: at value u8 32 with max 4 it returns ok 5 although
the true total 5 exceeds 4, and serialize_into under that bound writes all
5 bytes; a success implies only data-size at most max (total at most
max + 4), and when the pre-check does fail nothing at all is written. -/
theorem bound_enforcement_off_by_header :
    calc_serialized_size_bounded (Value.u8 32) 4 = .ok 5 ∧
    serialize_into (Value.u8 32) RepresentationFormat.CdrBe (some 4) =
      ([0, 0, 0, 0, 32], none) ∧
    (∀ (v : Value) (max sz : Nat),
      calc_serialized_size_bounded v max = .ok sz →
        sz = sizeValue 0 v + ENCAPSULATION_HEADER_SIZE ∧
        sizeValue 0 v ≤ max ∧ ENCAPSULATION_HEADER_SIZE ≤ max) ∧
    (∀ (v : Value) (fmt : RepresentationFormat) (max : Nat) (e : Error),
      (serialize_into v fmt (some max)).2 = some e →
        (serialize_into v fmt (some max)).1 = []) := by
  refine ⟨rfl, rfl, ?_, ?_⟩
  · intro v max sz h
    unfold calc_serialized_size_bounded calc_serialized_data_size_bounded
      at h
    split at h
    · simp at h
    · rename_i hmax
      by_cases hs : sizeValue 0 v ≤ max
      · simp [hs, Except.map] at h
        refine ⟨h.symm, hs, ?_⟩
        unfold ENCAPSULATION_HEADER_SIZE at hmax ⊢
        omega
      · simp [hs, Except.map] at h
  · intro v fmt max e h
    simp only [serialize_into] at h ⊢
    cases hc : calc_serialized_size_bounded v max with
    | error e2 => rfl
    | ok sz =>
      rw [hc] at h
      exact Option.noConfusion h

/-- Witness for bound_enforcement_off_by_header: a bounded check that does
fail (u16 data needs 2 bytes, budget 5 leaves only 1 past the header is
irrelevant here - budget 1 is below the header size) produces the SizeLimit
error with an empty output. -/
theorem bound_enforcement_off_by_header_witness :
    (5 : Nat) = sizeValue 0 (Value.u8 32) + ENCAPSULATION_HEADER_SIZE ∧
    (serialize_into (Value.u16 7) RepresentationFormat.CdrBe (some 1)).1 =
      [] :=
  ⟨(bound_enforcement_off_by_header.2.2.1 (Value.u8 32) 4 5 rfl).1,
   bound_enforcement_off_by_header.2.2.2 (Value.u16 7)
     RepresentationFormat.CdrBe 1 Error.SizeLimit rfl⟩

end Cdr
